import Mathlib

/-!
Verification of the cvc5 SMT-solver core excerpt: the SyGuS solver
(smt/sygus_solver.cpp), the bags theory (theory/bags/theory_bags.cpp) and the
model manager (theory/model_manager.cpp), shallowly embedded in Lean.

Terms are modelled as interned expression nodes: a kind tag with an ordered
list of children, or a leaf (variable, boolean constant, canonical ground
value).  Equality of terms is structural, mirroring pointer equality of
hash-consed nodes.
-/

/-- Types of terms: booleans, integers, bags over an element type, and
n-ary function types (mirroring cvc5 TypeNode as used by the excerpt). -/
inductive Ty where
  | bool : Ty
  | int : Ty
  | bag : Ty → Ty
  | fn : List Ty → Ty → Ty

/-- TypeNode::isBag. -/
def Ty.isBag : Ty → Bool
  | .bag _ => true
  | _ => false

/-- TypeNode::getArgTypes (empty for non-function types). -/
def Ty.argTypes : Ty → List Ty
  | .fn args _ => args
  | _ => []

mutual

/-- Structural boolean equality on types. -/
def Ty.beq : Ty → Ty → Bool
  | .bool, .bool => true
  | .int, .int => true
  | .bag a, .bag b => Ty.beq a b
  | .fn a r, .fn b s => Ty.beqList a b && Ty.beq r s
  | _, _ => false

/-- Pointwise boolean equality on lists of types. -/
def Ty.beqList : List Ty → List Ty → Bool
  | [], [] => true
  | a :: l, b :: m => Ty.beq a b && Ty.beqList l m
  | _, _ => false

end

mutual

theorem tyBeq_eq_iff : ∀ (a b : Ty), Ty.beq a b = true ↔ a = b
  | .bool, .bool => by simp [Ty.beq]
  | .bool, .int => by simp [Ty.beq]
  | .bool, .bag _ => by simp [Ty.beq]
  | .bool, .fn _ _ => by simp [Ty.beq]
  | .int, .bool => by simp [Ty.beq]
  | .int, .int => by simp [Ty.beq]
  | .int, .bag _ => by simp [Ty.beq]
  | .int, .fn _ _ => by simp [Ty.beq]
  | .bag _, .bool => by simp [Ty.beq]
  | .bag _, .int => by simp [Ty.beq]
  | .bag a, .bag b => by simp [Ty.beq, tyBeq_eq_iff a b]
  | .bag _, .fn _ _ => by simp [Ty.beq]
  | .fn _ _, .bool => by simp [Ty.beq]
  | .fn _ _, .int => by simp [Ty.beq]
  | .fn _ _, .bag _ => by simp [Ty.beq]
  | .fn a r, .fn b s => by
      simp [Ty.beq, tyBeq_eq_iff r s, tyBeqList_eq_iff a b]

theorem tyBeqList_eq_iff : ∀ (l m : List Ty), Ty.beqList l m = true ↔ l = m
  | [], [] => by simp [Ty.beqList]
  | [], _ :: _ => by simp [Ty.beqList]
  | _ :: _, [] => by simp [Ty.beqList]
  | a :: l, b :: m => by
      simp [Ty.beqList, tyBeq_eq_iff a b, tyBeqList_eq_iff l m]

end

instance : DecidableEq Ty := fun a b => decidable_of_iff _ (tyBeq_eq_iff a b)

/-- Node kinds used by the embedded excerpt of cvc5. -/
inductive Kind where
  | VARIABLE
  | CONST_BOOLEAN
  | GROUND_VALUE
  | AND
  | OR
  | NOT
  | IMPLIES
  | EQUAL
  | EXISTS
  | FORALL
  | APPLY_UF
  | BOUND_VAR_LIST
  | BAG_COUNT
  | BAG_MAKE
  | SYGUS_CONJECTURE
deriving DecidableEq

/-- Interned expression nodes: variables (with identity and type), boolean
constants, canonical ground values of a type, and applications of a kind to
an ordered list of children. -/
inductive Term where
  | var : Nat → Ty → Term
  | boolConst : Bool → Term
  | ground : Ty → Term
  | node : Kind → List Term → Term

mutual

/-- Structural boolean equality on terms (pointer equality of interned
nodes). -/
def Term.beq : Term → Term → Bool
  | .var i t, .var j s => i == j && Ty.beq t s
  | .boolConst a, .boolConst b => a == b
  | .ground t, .ground s => Ty.beq t s
  | .node k l, .node k2 m => k == k2 && Term.beqList l m
  | _, _ => false

/-- Pointwise boolean equality on lists of terms. -/
def Term.beqList : List Term → List Term → Bool
  | [], [] => true
  | a :: l, b :: m => Term.beq a b && Term.beqList l m
  | _, _ => false

end

mutual

theorem termBeq_eq_iff : ∀ (a b : Term), Term.beq a b = true ↔ a = b
  | .var i t, .var j s => by simp [Term.beq, tyBeq_eq_iff t s]
  | .var _ _, .boolConst _ => by simp [Term.beq]
  | .var _ _, .ground _ => by simp [Term.beq]
  | .var _ _, .node _ _ => by simp [Term.beq]
  | .boolConst _, .var _ _ => by simp [Term.beq]
  | .boolConst a, .boolConst b => by simp [Term.beq]
  | .boolConst _, .ground _ => by simp [Term.beq]
  | .boolConst _, .node _ _ => by simp [Term.beq]
  | .ground _, .var _ _ => by simp [Term.beq]
  | .ground _, .boolConst _ => by simp [Term.beq]
  | .ground t, .ground s => by simp [Term.beq, tyBeq_eq_iff t s]
  | .ground _, .node _ _ => by simp [Term.beq]
  | .node _ _, .var _ _ => by simp [Term.beq]
  | .node _ _, .boolConst _ => by simp [Term.beq]
  | .node _ _, .ground _ => by simp [Term.beq]
  | .node k l, .node k2 m => by
      simp [Term.beq, termBeqList_eq_iff l m]

theorem termBeqList_eq_iff : ∀ (l m : List Term), Term.beqList l m = true ↔ l = m
  | [], [] => by simp [Term.beqList]
  | [], _ :: _ => by simp [Term.beqList]
  | _ :: _, [] => by simp [Term.beqList]
  | a :: l, b :: m => by
      simp [Term.beqList, termBeq_eq_iff a b, termBeqList_eq_iff l m]

end

instance : DecidableEq Term := fun a b => decidable_of_iff _ (termBeq_eq_iff a b)

/-- Node::getKind. -/
def Term.kindOf : Term → Kind
  | .var _ _ => .VARIABLE
  | .boolConst _ => .CONST_BOOLEAN
  | .ground _ => .GROUND_VALUE
  | .node k _ => k

/-- Node::getType, for the fragment of the type system the excerpt
inspects.  Applied node kinds get the type relevant to the claims
(booleans for logical connectives, the element count type for BAG_COUNT,
and so on); leaves carry their type. -/
def Term.ty : Term → Ty
  | .var _ t => t
  | .boolConst _ => .bool
  | .ground t => t
  | .node .BAG_COUNT _ => .int
  | .node .BAG_MAKE (x :: _) => .bag (Term.ty x)
  | .node _ _ => .bool

/-- Children of a node (leaves have none). -/
def Term.children : Term → List Term
  | .node _ cs => cs
  | _ => []

/-- Node::getNumChildren. -/
def Term.numChildren (t : Term) : Nat := t.children.length

/-- Indexed child access n[i] (out-of-range accesses, which never occur in
the source, return a fixed default). -/
def Term.child (t : Term) (i : Nat) : Term := t.children.getD i (.boolConst true)

/-! ## SygusSolver (smt/sygus_solver.cpp)

The solver state holds the user-context-dependent lists of declared sygus
variables, constraints, assumptions and functions-to-synthesize, the
staleness flag of the cached synthesis conjecture, the cached conjecture
term, and the list of trivial functions computed by the last conjecture
construction.  Fresh bound variables minted by NodeManager::mkBoundVar are
modelled with a counter of the next unused variable identifier. -/

structure SygusState where
  sygusVars : List Term
  sygusConstraints : List Term
  sygusAssumps : List Term
  sygusFunSymbols : List Term
  sygusConjectureStale : Bool
  trivialFuns : List Term
  conj : Term
  nextId : Nat
deriving DecidableEq

/-- The state after SygusSolver's constructor: all lists empty, the
staleness flag initialized to true, the cached conjecture null (modelled
by the constant true node). -/
def initSygusState : SygusState :=
  { sygusVars := [], sygusConstraints := [], sygusAssumps := [],
    sygusFunSymbols := [], sygusConjectureStale := true, trivialFuns := [],
    conj := .boolConst true, nextId := 0 }

/-- SygusSolver::declareSygusVar: push the variable; the source
deliberately does not set the staleness flag here ("don't need to set that
the conjecture is stale"). -/
def declareSygusVar (st : SygusState) (v : Term) : SygusState :=
  { st with sygusVars := st.sygusVars ++ [v] }

/-- SygusSolver::declareSynthFun: push the function symbol and mark the
conjecture stale.  Attaching the argument-list and grammar attributes and
checking the grammar for free variables are delegated to external
collaborators (SygusUtils, checkDefinitionsSygusDt) and do not change the
solver state modelled here; the grammar is consulted later through the
`gram` parameter of conjecture construction. -/
def declareSynthFun (st : SygusState) (fn : Term) : SygusState :=
  { st with sygusFunSymbols := st.sygusFunSymbols ++ [fn],
            sygusConjectureStale := true }

/-- The common tail of SygusSolver::assertSygusConstraint: push the
(possibly rewritten) constraint onto the assumption or constraint list and
mark the conjecture stale. -/
def pushSygusConstraint (isAssume : Bool) (st : SygusState) (n : Term) : SygusState :=
  if isAssume then
    { st with sygusAssumps := st.sygusAssumps ++ [n], sygusConjectureStale := true }
  else
    { st with sygusConstraints := st.sygusConstraints ++ [n], sygusConjectureStale := true }

mutual

/-- SygusSolver::assertSygusConstraint: miniscope AND constraints by
recursing into each conjunct; unwrap one top-level FORALL by declaring its
bound variables as sygus variables and keeping its body; otherwise push
the constraint. -/
def assertSygusConstraint (isAssume : Bool) : SygusState → Term → SygusState
  | st, .node .AND cs => assertSygusConstraintList isAssume st cs
  | st, .node .FORALL (bvl :: body :: _) =>
      let st := bvl.children.foldl declareSygusVar st
      pushSygusConstraint isAssume st body
  | st, n => pushSygusConstraint isAssume st n

/-- The recursive loop over the conjuncts of an AND constraint. -/
def assertSygusConstraintList (isAssume : Bool) : SygusState → List Term → SygusState
  | st, [] => st
  | st, c :: cs =>
      assertSygusConstraintList isAssume (assertSygusConstraint isAssume st c) cs

end

/-- The fresh regular/primed variable construction loop of
SygusSolver::assertSygusInvConstraint: for each argument type of the
invariant-to-synthesize, mint one regular and one primed bound variable
and push both (in that order) for the declared-variable list.  Returns
(vars, primed_vars, variables pushed to d_sygusVars, next fresh id). -/
def mkInvVars : Nat → List Ty → List Term × List Term × List Term × Nat
  | c, [] => ([], [], [], c)
  | c, t :: ts =>
      let v := Term.var c t
      let p := Term.var (c + 1) t
      let r := mkInvVars (c + 2) ts
      (v :: r.1, p :: r.2.1, v :: p :: r.2.2.1, r.2.2.2)

/-- An APPLY_UF application of an operator to arguments. -/
def mkApplyUf (op : Term) (args : List Term) : Term :=
  Term.node .APPLY_UF (op :: args)

/-- SygusSolver::assertSygusInvConstraint: build the applications
Inv(vars), Pre(vars), Trans(vars, primed), Post(vars) and Inv(primed),
conjoin the three implications Pre=>Inv, (Inv and Trans)=>Inv-primed and
Inv=>Post as a single constraint, push it and mark the conjecture
stale. -/
def assertSygusInvConstraint (st : SygusState) (inv pre trans post : Term) : SygusState :=
  let r := mkInvVars st.nextId inv.ty.argTypes
  let vars := r.1
  let primedVars := r.2.1
  let t0 := mkApplyUf inv vars
  let t1 := mkApplyUf pre vars
  let t2 := mkApplyUf trans (vars ++ primedVars)
  let t3 := mkApplyUf post vars
  let t4 := mkApplyUf inv primedVars
  let constraint := Term.node .AND
    [Term.node .IMPLIES [t1, t0],
     Term.node .IMPLIES [Term.node .AND [t0, t2], t4],
     Term.node .IMPLIES [t0, t3]]
  { st with sygusVars := st.sygusVars ++ r.2.2.1,
            sygusConstraints := st.sygusConstraints ++ [constraint],
            nextId := r.2.2.2,
            sygusConjectureStale := true }

/-- NodeManager::mkAnd: true for the empty list, the sole element for a
singleton, an AND node otherwise. -/
def mkAndN (cs : List Term) : Term :=
  match cs with
  | [] => .boolConst true
  | [c] => c
  | _ => .node .AND cs

/-- The options consulted by SygusSolver::checkSynth. -/
structure SygusOpts where
  sygusStream : Bool
  incrementalSolving : Bool
deriving DecidableEq

/-- SygusSolver::usingSygusSubsolver: use a subsolver iff in incremental
mode. -/
def usingSygusSubsolver (o : SygusOpts) : Bool := o.incrementalSolving

/-- The quantifier-free/negated/existentially-closed body built by
SygusSolver::checkSynth when the conjecture is stale: conjoin the
constraints, guard them by the conjoined assumptions when both lists are
non-empty, negate, and existentially quantify over the declared variables
when there are any. -/
def conjBodyBase (st : SygusState) : Term :=
  let body := mkAndN st.sygusConstraints
  let body :=
    if !st.sygusConstraints.isEmpty && !st.sygusAssumps.isEmpty then
      Term.node .IMPLIES [mkAndN st.sygusAssumps, body]
    else body
  let body := Term.node .NOT [body]
  if !st.sygusVars.isEmpty then
    Term.node .EXISTS [Term.node .BOUND_VAR_LIST st.sygusVars, body]
  else body

/-- Insertion into an unordered set, modelled as a duplicate-free list. -/
def insertNew (l : List Term) (x : Term) : List Term :=
  if x ∈ l then l else l ++ [x]

/-- Insert every element of a list into the set. -/
def insertAll (l : List Term) (xs : List Term) : List Term :=
  xs.foldl insertNew l

mutual

/-- expr::getVariables, accumulator form: collect the variable subterms of
a term into a set. -/
def getVarsT : List Term → Term → List Term
  | acc, .var i t => insertNew acc (.var i t)
  | acc, .boolConst _ => acc
  | acc, .ground _ => acc
  | acc, .node _ cs => getVarsL acc cs

/-- Collect the variable subterms of each term of a list. -/
def getVarsL : List Term → List Term → List Term
  | acc, [] => acc
  | acc, c :: cs => getVarsL (getVarsT acc c) cs

end

/-- expr::getVariables on a single term. -/
def getVariables (t : Term) : List Term := getVarsT [] t

/-- One partition pass of the triviality-inference loop in
SygusSolver::checkSynth: walk the declared synthesis functions in order,
appending each to the non-trivial accumulator if it occurs in the variable
set and to the trivial accumulator otherwise. -/
def partitionFuns (vs : List Term) : List Term → List Term × List Term → List Term × List Term
  | [], acc => acc
  | f :: fs, acc =>
      if f ∈ vs then partitionFuns vs fs (acc.1 ++ [f], acc.2)
      else partitionFuns vs fs (acc.1, acc.2 ++ [f])

/-- The triviality-inference loop of SygusSolver::checkSynth (capped at
two passes).  `gram` gives the free variables of the sygus grammar
attached to a function (SygusUtils::getSygusType composed with
getFreeVariablesSygusType, both external collaborators; the empty list for
functions without a grammar).  The first pass partitions the functions by
occurrence in `vs0`; if some function was trivial, the set is expanded
with the grammar variables of the non-trivial functions, and when that
discovered new symbols a second pass re-partitions (clearing the trivial
accumulator but, as in the source, appending to the non-trivial one).
Returns (non-trivial accumulator, trivial functions). -/
def trivialityInference (gram : Term → List Term) (funs : List Term)
    (vs0 : List Term) : List Term × List Term :=
  let r0 := partitionFuns vs0 funs ([], [])
  if r0.2.isEmpty then r0
  else
    let vs1 := insertAll vs0 (r0.1.flatMap gram)
    if vs1.length == vs0.length then r0
    else partitionFuns vs1 funs (r0.1, [])

/-- Modelled from the spec: quantifiers::SygusUtils::mkSygusConjecture
(theory/quantifiers/sygus/sygus_utils.cpp, not part of this excerpt) wraps
the body in the universally-quantified synthesis-conjecture marker over
exactly the given functions-to-synthesize. -/
def mkSygusConjecture (funs : List Term) (body : Term) : Term :=
  Term.node .SYGUS_CONJECTURE [Term.node .BOUND_VAR_LIST funs, body]

/-- SygusSolver::checkSynth, body[1] extraction: consider the body of the
existential rather than the existential itself. -/
def stripExists (body : Term) : Term :=
  if body.kindOf == .EXISTS then body.child 1 else body

/-- The conjecture-(re)construction phase of SygusSolver::checkSynth.
`pp` is the preprocessor substitution application followed by the
rewriter (both external collaborators); `gram` is as in
`trivialityInference`; `isNext` is the check-synth-next flag;
`subsolverMismatch` models d_subsolverCd.get() differing from
d_subsolver.get() after backtracking.  When the conjecture is stale the
body is rebuilt, triviality inference runs unless in streaming or
incremental mode, non-trivial functions are wrapped into the synthesis
conjecture, and the staleness flag is cleared. -/
def checkSynthConstruct (o : SygusOpts) (pp : Term → Term) (gram : Term → List Term)
    (isNext : Bool) (subsolverMismatch : Bool) (st : SygusState) : SygusState :=
  let st := if !isNext then { st with sygusConjectureStale := true } else st
  let st :=
    if usingSygusSubsolver o && subsolverMismatch then
      { st with sygusConjectureStale := true }
    else st
  if st.sygusConjectureStale then
    let body := conjBodyBase st
    let inferTrivial := !(o.sygusStream || o.incrementalSolving)
    let nttr :=
      if inferTrivial then
        let ppBody := pp (stripExists body)
        trivialityInference gram st.sygusFunSymbols (getVariables ppBody)
      else (st.sygusFunSymbols, st.trivialFuns)
    let body := if !nttr.1.isEmpty then mkSygusConjecture nttr.1 body else body
    { st with sygusConjectureStale := false, conj := body, trivialFuns := nttr.2 }
  else st

/-- Result::Status of a raw satisfiability check. -/
inductive Status where
  | SAT
  | UNSAT
  | UNKNOWN
deriving DecidableEq

/-- SynthResult status values. -/
inductive SynthStatus where
  | SOLUTION
  | NO_SOLUTION
  | UNKNOWN
deriving DecidableEq

/-- The result interpretation at the end of SygusSolver::checkSynth
(after the raw satisfiability check): if getSynthSolutions succeeded the
result is SOLUTION; otherwise NO_SOLUTION if the raw check returned
UNSAT; otherwise UNKNOWN (with UnknownExplanation::UNKNOWN_REASON). -/
def interpretSynthResult (solutionsFound : Bool) (raw : Status) : SynthStatus :=
  if solutionsFound then .SOLUTION
  else if raw = .UNSAT then .NO_SOLUTION
  else .UNKNOWN

/-- std::map assignment solMap[k] = v on an association list. -/
def setAssoc : List (Term × Term) → Term → Term → List (Term × Term)
  | [], k, v => [(k, v)]
  | p :: m, k, v => if p.1 = k then (k, v) :: m else p :: setAssoc m k v

/-- std::map lookup on an association list. -/
def lookupAssoc : List (Term × Term) → Term → Option Term
  | [], _ => none
  | p :: m, k => if p.1 = k then some p.2 else lookupAssoc m k

/-- Modelled from the spec: quantifiers::SygusUtils::mkSygusTermFor
(theory/quantifiers/sygus/sygus_utils.cpp, not part of this excerpt)
returns a canonical placeholder solution term for a trivial
function-to-synthesize; per the source assertion
`Assert(f.getType() == sf.getType())` in SygusSolver::getSynthSolutions,
its type is identical to the declared type of the function (which is the
function's range/output type, since a solved function is presented as a
value of its declared type). -/
def mkSygusTermFor (f : Term) : Term := Term.ground f.ty

/-- SygusSolver::getSynthSolutions: `ret` is whether the (sub)solver's
quantifiers engine produced synthesis solutions, `base` the solution map
it filled.  When successful, each trivial function additionally receives
its canonical placeholder solution. -/
def getSynthSolutionsStep (ret : Bool) (base : List (Term × Term))
    (trivialFuns : List Term) : Bool × List (Term × Term) :=
  if ret then
    (true, trivialFuns.foldl (fun m f => setAssoc m f (mkSygusTermFor f)) base)
  else (false, base)

/-- SygusSolver::canTrustSynthesisResult: the result cannot be trusted
exactly when cegisSample is set to CegisSampleMode::TRUST. -/
def canTrustSynthesisResult (cegisSampleIsTrust : Bool) : Bool :=
  if cegisSampleIsTrust then false else true

/-- The per-conjecture outcome of the verification loop in
SygusSolver::checkSynthSolution. -/
inductive SolCheckOutcome where
  | accepted
  | warned
  | fatalInternalError
deriving DecidableEq

/-- The per-conjecture tail of SygusSolver::checkSynthSolution: an UNSAT
verification check accepts the solution silently; otherwise a hard
failure is signalled exactly when the result is SAT and the
configuration trusts synthesis results, and a warning otherwise. -/
def checkSynthSolutionConj (canTrustResult : Bool) (r : Status) : SolCheckOutcome :=
  if r = .UNSAT then .accepted
  else
    let hardFailure := canTrustResult
    let hardFailure := if r = .SAT then hardFailure else false
    if hardFailure then .fatalInternalError else .warned

/-- The overall outcome of SygusSolver::checkSynthSolution. -/
inductive SolCheckRun where
  | emptySolMapError
  | outcomes : List SolCheckOutcome → SolCheckRun
deriving DecidableEq

/-- SygusSolver::checkSynthSolution: an empty solution map raises an
unconditional fatal internal error before the verification loop;
otherwise each checked conjecture (with its verification result) yields
its per-conjecture outcome. -/
def checkSynthSolutionRun (cegisSampleIsTrust : Bool) (solMap : List (Term × Term))
    (verifResults : List Status) : SolCheckRun :=
  let canTrustResult := canTrustSynthesisResult cegisSampleIsTrust
  if solMap.isEmpty then .emptySolMapError
  else .outcomes (verifResults.map (checkSynthSolutionConj canTrustResult))

/-! ## Bags theory (theory/bags/theory_bags.cpp)

The equality engine is abstracted by its query interface: `eqF` is
EqualityEngine::areEqual (also backing TheorySolverState::areEqual) and
`trig` is EqualityEngine::isTriggerTerm for THEORY_BAGS. -/

/-- TheoryBags::isCareArg: argument `a` of `n` is a care argument when it
is a trigger term, or when `n` is a count/make term, `a` is the first
position and that first argument is itself bag-typed. -/
def isCareArg (trig : Term → Bool) (n : Term) (a : Nat) : Bool :=
  if trig (n.child a) then true
  else if (n.kindOf = .BAG_COUNT || n.kindOf = .BAG_MAKE) && a = 0
          && (n.child 0).ty.isBag then true
  else false

/-- The case-split lemma (x = y) or (not (x = y)). -/
def splitLemma (x y : Term) : Term :=
  Term.node .OR [Term.node .EQUAL [x, y],
                 Term.node .NOT [Term.node .EQUAL [x, y]]]

/-- TheoryBags::processCarePairArgs, restricted to the lemmas it emits:
skip entirely when the pair is already known equal, unless the terms are
count terms; otherwise (after adding the argument pairs to the care graph
via Theory::addCarePairArgs, which emits no lemma) walk the argument
positions and, for each pair of arguments not known equal where both
sides are care arguments and the argument is bag-typed, emit the
case-split lemma (with InferenceId::BAGS_CG_SPLIT). -/
def processCarePairArgs (eqF : Term → Term → Bool) (trig : Term → Bool)
    (a b : Term) : List Term :=
  if a.kindOf ≠ .BAG_COUNT && eqF a b then []
  else
    (List.range a.numChildren).filterMap (fun i =>
      let x := a.child i
      let y := b.child i
      if !eqF x y then
        if isCareArg trig a i && isCareArg trig b i then
          if x.ty.isBag then some (splitLemma x y) else none
        else none
      else none)

/-- The environment of external collaborators consulted by
TheoryBags::collectModelValues: Theory::isLeafOf for THEORY_BAGS, the
solver-state and model representative maps, the per-representative
(element, count-skolem) pairs, BagsUtils::constructBagFromElements and
the rewriter. -/
structure BagsModelEnv where
  isLeaf : Term → Bool
  solverRep : Term → Term
  modelRep : Term → Term
  elementCountPairs : Term → List (Term × Term)
  constructBag : Ty → List (Term × Term) → Term
  rw : Term → Term

/-- One iteration of the loop of TheoryBags::collectModelValues over the
relevant term set.  The accumulator is (asserted equalities as
(constructed value, term) pairs, the processedBags map from bag
representatives to their constructed values). -/
def collectModelValuesStep (env : BagsModelEnv) (termSet : List Term)
    (acc : List (Term × Term) × List (Term × Term)) (n : Term) :
    List (Term × Term) × List (Term × Term) :=
  if !n.ty.isBag then acc
  else if !env.isLeaf n then acc
  else
    let r := env.solverRep n
    if (lookupAssoc acc.2 r).isSome then acc
    else
      let solverElements := env.elementCountPairs r
      let elements := solverElements.filter (fun p => decide (p.1 ∈ termSet))
      let elementReps := elements.foldl
        (fun m p => setAssoc m (env.solverRep p.1) (env.modelRep p.2)) []
      let constructedBag := env.rw (env.constructBag n.ty elementReps)
      (acc.1 ++ [(constructedBag, n)], acc.2 ++ [(r, constructedBag)])

/-- TheoryBags::collectModelValues: fold the loop body over the relevant
term set (a std::set, modelled as the list of its elements in iteration
order).  Returns the list of equalities asserted into the model and the
processedBags map. -/
def collectModelValues (env : BagsModelEnv) (termSet : List Term) :
    List (Term × Term) × List (Term × Term) :=
  termSet.foldl (collectModelValuesStep env termSet) ([], [])

/-! ## ModelManager (theory/model_manager.cpp) -/

/-- The state of the ModelManager relevant to the build/post-process round
protocol: the two flags set by buildModel/resetModel, and a count of the
post-processing passes applied to the model object (so that state
modification by postProcessModel is observable). -/
structure MMState where
  modelBuilt : Bool
  modelBuiltSuccess : Bool
  postProcessCount : Nat
deriving DecidableEq

/-- ModelManager::resetModel: reset both flags at the start of a round. -/
def resetModel (st : MMState) : MMState :=
  { st with modelBuilt := false, modelBuiltSuccess := false }

/-- ModelManager::buildModel: idempotent per round — if a build already
happened, return the cached success flag; otherwise mark the build as
happened and record success exactly when prepareModel succeeded and then
finishBuildModel succeeded (prepareModel failure short-circuits).
`prepareOk` and `finishOk` abstract the outcomes of prepareModel and
finishBuildModel; resource-limit accounting is disabled for the
duration, which does not affect this state. -/
def buildModel (prepareOk finishOk : Bool) (st : MMState) : Bool × MMState :=
  if st.modelBuilt then (st.modelBuiltSuccess, st)
  else
    let success := if prepareOk then finishOk else false
    (success, { st with modelBuilt := true, modelBuiltSuccess := success })

/-- Outcome of a ModelManager::postProcessModel call. -/
inductive PostProcessOutcome where
  | skippedNotBuilt
  | fatalAssertionFailure
  | skippedNoProduceModels
  | processed
deriving DecidableEq

/-- ModelManager::postProcessModel: return immediately when no build
happened this round; otherwise the assertion AlwaysAssert(
d_modelBuiltSuccess) fails fatally when the build did not succeed; then
return before touching the model unless produceModels is on; otherwise
run the per-theory and builder post-processing over the model. -/
def postProcessModel (produceModels : Bool) (st : MMState) :
    PostProcessOutcome × MMState :=
  if !st.modelBuilt then (.skippedNotBuilt, st)
  else if !st.modelBuiltSuccess then (.fatalAssertionFailure, st)
  else if !produceModels then (.skippedNoProduceModels, st)
  else (.processed, { st with postProcessCount := st.postProcessCount + 1 })

/-- ModelManager::collectModelBooleanVariables: for each Boolean variable
known to the PropEngine (in order), take its assigned value; when the
engine reports no value the value defaults to false (noted only on the
"model-builder-assertions" trace stream), and the variable is asserted
into the model with d_model->assertPredicate(var, value) exactly as an
explicitly assigned variable would be; a failing assertPredicate aborts
with overall failure.  `hasVal` abstracts PropEngine::hasValue, `apOk`
the success of TheoryModel::assertPredicate; the returned model content
is the list of (variable, value) predicate assertions. -/
def collectModelBooleanVariables (hasVal : Term → Option Bool)
    (apOk : Term → Bool → Bool) : List Term → List (Term × Bool) →
    Option (List (Term × Bool))
  | [], acc => some acc
  | v :: vs, acc =>
      let value := (hasVal v).getD false
      if apOk v value then
        collectModelBooleanVariables hasVal apOk vs (acc ++ [(v, value)])
      else none

/-! ## Supporting lemmas -/

theorem pushSygusConstraint_stale (isA : Bool) (st : SygusState) (n : Term) :
    (pushSygusConstraint isA st n).sygusConjectureStale = true := by
  cases isA <;> simp [pushSygusConstraint]

mutual

/-- Well-formedness of interned nodes as produced by the node manager:
every AND node has at least two children (the arity of Kind::AND). -/
def andArityOk : Term → Bool
  | .node .AND cs => decide (2 ≤ cs.length) && andArityOkList cs
  | .node _ cs => andArityOkList cs
  | _ => true

/-- andArityOk on every term of a list. -/
def andArityOkList : List Term → Bool
  | [] => true
  | c :: cs => andArityOk c && andArityOkList cs

end

mutual

theorem assertSygusConstraint_stale : ∀ (isA : Bool) (st : SygusState) (n : Term),
    andArityOk n = true → (assertSygusConstraint isA st n).sygusConjectureStale = true
  | isA, st, .var i t, _ => by
      simp [assertSygusConstraint, pushSygusConstraint_stale]
  | isA, st, .boolConst b, _ => by
      simp [assertSygusConstraint, pushSygusConstraint_stale]
  | isA, st, .ground t, _ => by
      simp [assertSygusConstraint, pushSygusConstraint_stale]
  | isA, st, .node .AND cs, h => by
      simp only [andArityOk, Bool.and_eq_true, decide_eq_true_eq] at h
      have hne : cs ≠ [] := by
        intro hc; subst hc; simp at h
      simp only [assertSygusConstraint]
      exact assertSygusConstraintList_stale isA st cs hne h.2
  | isA, st, .node .FORALL [], _ => by
      simp [assertSygusConstraint, pushSygusConstraint_stale]
  | isA, st, .node .FORALL [bvl], _ => by
      simp [assertSygusConstraint, pushSygusConstraint_stale]
  | isA, st, .node .FORALL (bvl :: body :: rest), _ => by
      simp [assertSygusConstraint, pushSygusConstraint_stale]
  | isA, st, .node .VARIABLE cs, _ => by
      simp [assertSygusConstraint, pushSygusConstraint_stale]
  | isA, st, .node .CONST_BOOLEAN cs, _ => by
      simp [assertSygusConstraint, pushSygusConstraint_stale]
  | isA, st, .node .GROUND_VALUE cs, _ => by
      simp [assertSygusConstraint, pushSygusConstraint_stale]
  | isA, st, .node .OR cs, _ => by
      simp [assertSygusConstraint, pushSygusConstraint_stale]
  | isA, st, .node .NOT cs, _ => by
      simp [assertSygusConstraint, pushSygusConstraint_stale]
  | isA, st, .node .IMPLIES cs, _ => by
      simp [assertSygusConstraint, pushSygusConstraint_stale]
  | isA, st, .node .EQUAL cs, _ => by
      simp [assertSygusConstraint, pushSygusConstraint_stale]
  | isA, st, .node .EXISTS cs, _ => by
      simp [assertSygusConstraint, pushSygusConstraint_stale]
  | isA, st, .node .APPLY_UF cs, _ => by
      simp [assertSygusConstraint, pushSygusConstraint_stale]
  | isA, st, .node .BOUND_VAR_LIST cs, _ => by
      simp [assertSygusConstraint, pushSygusConstraint_stale]
  | isA, st, .node .BAG_COUNT cs, _ => by
      simp [assertSygusConstraint, pushSygusConstraint_stale]
  | isA, st, .node .BAG_MAKE cs, _ => by
      simp [assertSygusConstraint, pushSygusConstraint_stale]
  | isA, st, .node .SYGUS_CONJECTURE cs, _ => by
      simp [assertSygusConstraint, pushSygusConstraint_stale]

theorem assertSygusConstraintList_stale : ∀ (isA : Bool) (st : SygusState) (cs : List Term),
    cs ≠ [] → andArityOkList cs = true →
    (assertSygusConstraintList isA st cs).sygusConjectureStale = true
  | isA, st, [], hne, _ => absurd rfl hne
  | isA, st, [c], _, h => by
      simp only [andArityOkList, Bool.and_eq_true] at h
      simp only [assertSygusConstraintList]
      exact assertSygusConstraint_stale isA st c h.1
  | isA, st, c :: c2 :: cs, _, h => by
      simp only [andArityOkList, Bool.and_eq_true] at h
      simp only [assertSygusConstraintList]
      exact assertSygusConstraintList_stale isA _ (c2 :: cs) (by simp)
        (by simp [andArityOkList, h.2.1, h.2.2])

end

/-! ## Claim theorems -/

/-- C1: the SynthResult returned by SygusSolver::checkSynth is SOLUTION
whenever getSynthSolutions succeeded, regardless of the raw
satisfiability status; NO_SOLUTION when no solution was extracted and the
raw check was UNSAT; and UNKNOWN in every other case. -/
theorem checkSynth_result_interpretation (solutionsFound : Bool) (raw : Status) :
    (solutionsFound = true → interpretSynthResult solutionsFound raw = .SOLUTION)
    ∧ (solutionsFound = false → raw = .UNSAT →
        interpretSynthResult solutionsFound raw = .NO_SOLUTION)
    ∧ (solutionsFound = false → raw ≠ .UNSAT →
        interpretSynthResult solutionsFound raw = .UNKNOWN) := by
  refine ⟨fun h => ?_, fun h hr => ?_, fun h hr => ?_⟩ <;>
    subst h <;> cases raw <;> simp_all [interpretSynthResult]

/-- Witness for C1 at concrete inputs. -/
theorem checkSynth_result_interpretation_witness :
    interpretSynthResult true .UNKNOWN = .SOLUTION
    ∧ interpretSynthResult false .UNSAT = .NO_SOLUTION
    ∧ interpretSynthResult false .SAT = .UNKNOWN :=
  ⟨(checkSynth_result_interpretation true .UNKNOWN).1 rfl,
   (checkSynth_result_interpretation false .UNSAT).2.1 rfl rfl,
   (checkSynth_result_interpretation false .SAT).2.2 rfl (by decide)⟩

/-- C2 counterexample: declareSygusVar does not set the staleness flag.
After declaring a synthesis function and running a checkSynth (which
clears the flag), a declareSygusVar call leaves the flag false, so the
claim that every declare or assert operation sets it to true is false. -/
theorem declareSygusVar_does_not_set_stale :
    (declareSygusVar
      (checkSynthConstruct ⟨false, false⟩ id (fun _ => []) false false
        (declareSynthFun initSygusState (Term.var 0 (.fn [] .int))))
      (Term.var 1 .int)).sygusConjectureStale = false := by decide

/-- C2 (amended): declareSynthFun, assertSygusConstraint (on well-formed
constraints) and assertSygusInvConstraint each set the
synthesis-conjecture staleness flag to true, forcing the conjecture to be
reconstructed on the next checkSynth; declareSygusVar deliberately leaves
the flag unchanged and does not by itself force reconstruction. -/
theorem sygus_declare_assert_staleness (st : SygusState)
    (fn v inv pre trans post n : Term) (isAssume : Bool)
    (h : andArityOk n = true) :
    (declareSynthFun st fn).sygusConjectureStale = true
    ∧ (assertSygusConstraint isAssume st n).sygusConjectureStale = true
    ∧ (assertSygusInvConstraint st inv pre trans post).sygusConjectureStale = true
    ∧ (declareSygusVar st v).sygusConjectureStale = st.sygusConjectureStale :=
  ⟨rfl, assertSygusConstraint_stale isAssume st n h, rfl, rfl⟩

/-- Witness for the amended C2 at concrete inputs. -/
theorem sygus_declare_assert_staleness_witness :
    andArityOk (Term.node .AND [Term.var 0 .bool, Term.var 1 .bool]) = true
    ∧ (declareSynthFun initSygusState (Term.var 2 (.fn [] .int))).sygusConjectureStale = true
    ∧ (assertSygusConstraint false initSygusState
        (Term.node .AND [Term.var 0 .bool, Term.var 1 .bool])).sygusConjectureStale = true
    ∧ (assertSygusInvConstraint initSygusState (Term.var 3 (.fn [.int] .bool))
        (Term.var 4 (.fn [.int] .bool)) (Term.var 5 (.fn [.int, .int] .bool))
        (Term.var 6 (.fn [.int] .bool))).sygusConjectureStale = true
    ∧ (declareSygusVar initSygusState (Term.var 7 .int)).sygusConjectureStale
        = initSygusState.sygusConjectureStale :=
  ⟨by decide,
   (sygus_declare_assert_staleness initSygusState (Term.var 2 (.fn [] .int))
      (Term.var 7 .int) (Term.var 3 (.fn [.int] .bool)) (Term.var 4 (.fn [.int] .bool))
      (Term.var 5 (.fn [.int, .int] .bool)) (Term.var 6 (.fn [.int] .bool))
      (Term.node .AND [Term.var 0 .bool, Term.var 1 .bool]) false (by decide)).1,
   (sygus_declare_assert_staleness initSygusState (Term.var 2 (.fn [] .int))
      (Term.var 7 .int) (Term.var 3 (.fn [.int] .bool)) (Term.var 4 (.fn [.int] .bool))
      (Term.var 5 (.fn [.int, .int] .bool)) (Term.var 6 (.fn [.int] .bool))
      (Term.node .AND [Term.var 0 .bool, Term.var 1 .bool]) false (by decide)).2.1,
   (sygus_declare_assert_staleness initSygusState (Term.var 2 (.fn [] .int))
      (Term.var 7 .int) (Term.var 3 (.fn [.int] .bool)) (Term.var 4 (.fn [.int] .bool))
      (Term.var 5 (.fn [.int, .int] .bool)) (Term.var 6 (.fn [.int] .bool))
      (Term.node .AND [Term.var 0 .bool, Term.var 1 .bool]) false (by decide)).2.2.1,
   (sygus_declare_assert_staleness initSygusState (Term.var 2 (.fn [] .int))
      (Term.var 7 .int) (Term.var 3 (.fn [.int] .bool)) (Term.var 4 (.fn [.int] .bool))
      (Term.var 5 (.fn [.int, .int] .bool)) (Term.var 6 (.fn [.int] .bool))
      (Term.node .AND [Term.var 0 .bool, Term.var 1 .bool]) false (by decide)).2.2.2⟩

/-- C7: in SygusSolver::checkSynthSolution, an UNSAT verification result
accepts the solution with no diagnostic; a SAT result is a fatal internal
error unless the configuration (cegisSample = TRUST) marks the result as
untrustworthy, in which case it is only a warning; an UNKNOWN result is
always a warning and never fatal, regardless of the trust
configuration. -/
theorem checkSynthSolution_verification_outcomes (cegisSampleIsTrust : Bool) (r : Status) :
    (r = .UNSAT →
      checkSynthSolutionConj (canTrustSynthesisResult cegisSampleIsTrust) r = .accepted)
    ∧ (r = .SAT → cegisSampleIsTrust = false →
      checkSynthSolutionConj (canTrustSynthesisResult cegisSampleIsTrust) r
        = .fatalInternalError)
    ∧ (r = .SAT → cegisSampleIsTrust = true →
      checkSynthSolutionConj (canTrustSynthesisResult cegisSampleIsTrust) r = .warned)
    ∧ (r = .UNKNOWN →
      checkSynthSolutionConj (canTrustSynthesisResult cegisSampleIsTrust) r = .warned) := by
  cases r <;> cases cegisSampleIsTrust <;>
    simp [checkSynthSolutionConj, canTrustSynthesisResult]

/-- Witness for C7 at concrete inputs. -/
theorem checkSynthSolution_verification_outcomes_witness :
    checkSynthSolutionConj (canTrustSynthesisResult false) .UNSAT = .accepted
    ∧ checkSynthSolutionConj (canTrustSynthesisResult false) .SAT = .fatalInternalError
    ∧ checkSynthSolutionConj (canTrustSynthesisResult true) .SAT = .warned
    ∧ checkSynthSolutionConj (canTrustSynthesisResult true) .UNKNOWN = .warned :=
  ⟨(checkSynthSolution_verification_outcomes false .UNSAT).1 rfl,
   (checkSynthSolution_verification_outcomes false .SAT).2.1 rfl rfl,
   (checkSynthSolution_verification_outcomes true .SAT).2.2.1 rfl rfl,
   (checkSynthSolution_verification_outcomes true .UNKNOWN).2.2.2 rfl⟩

/-- C8: SygusSolver::checkSynthSolution raises a fatal internal error on
an empty solution map, unconditionally — for every trust configuration
(including cegisSample = TRUST) and every collection of verification
results. -/
theorem checkSynthSolution_empty_solution_fatal (cegisSampleIsTrust : Bool)
    (verifResults : List Status) :
    checkSynthSolutionRun cegisSampleIsTrust [] verifResults = .emptySolMapError := by
  simp [checkSynthSolutionRun]

/-- C10: ModelManager::postProcessModel called when no buildModel call has
started a build this round returns without modifying any state; called
after a buildModel whose model construction failed, it hits the fatal
assertion AlwaysAssert(d_modelBuiltSuccess) rather than returning
silently. -/
theorem postProcessModel_protocol (produceModels prepareOk finishOk : Bool)
    (st : MMState) (hnb : st.modelBuilt = false) :
    postProcessModel produceModels st = (.skippedNotBuilt, st)
    ∧ ((buildModel prepareOk finishOk st).1 = false →
        postProcessModel produceModels (buildModel prepareOk finishOk st).2
          = (.fatalAssertionFailure, (buildModel prepareOk finishOk st).2)) := by
  constructor
  · simp [postProcessModel, hnb]
  · intro hfail
    simp only [buildModel, hnb, Bool.false_eq_true, if_false] at hfail ⊢
    simp only [postProcessModel, hfail]
    simp [hfail]

/-- Witness for C10 at concrete inputs: a failed prepareModel step. -/
theorem postProcessModel_protocol_witness :
    postProcessModel true ⟨false, false, 0⟩ = (.skippedNotBuilt, ⟨false, false, 0⟩)
    ∧ postProcessModel true (buildModel false true ⟨false, false, 0⟩).2
        = (.fatalAssertionFailure, (buildModel false true ⟨false, false, 0⟩).2) :=
  ⟨(postProcessModel_protocol true false true ⟨false, false, 0⟩ rfl).1,
   (postProcessModel_protocol true false true ⟨false, false, 0⟩ rfl).2 (by decide)⟩

/-- C3 counterexample: an atom the SAT engine reports no value for yields
the model entry (var, false), and the produced model is identical to the
one produced when the SAT engine explicitly assigns false to that atom —
the defaulted value is not distinguishable in the produced model (the
default is noted only on a trace stream). -/
theorem boolean_default_indistinguishable :
    collectModelBooleanVariables (fun _ => none) (fun _ _ => true)
      [Term.var 0 .bool] [] = some [(Term.var 0 .bool, false)]
    ∧ collectModelBooleanVariables (fun _ => none) (fun _ _ => true)
        [Term.var 0 .bool] []
      = collectModelBooleanVariables (fun _ => some false) (fun _ _ => true)
        [Term.var 0 .bool] [] := by
  constructor <;> decide

/-- Entries of the accumulator survive into the result of
collectModelBooleanVariables. -/
theorem collectModelBooleanVariables_acc_sub (hasVal : Term → Option Bool)
    (apOk : Term → Bool → Bool) :
    ∀ (vars : List Term) (acc out : List (Term × Bool)),
    collectModelBooleanVariables hasVal apOk vars acc = some out →
    ∀ p ∈ acc, p ∈ out
  | [], acc, out, hrun => by
      simp only [collectModelBooleanVariables, Option.some.injEq] at hrun
      subst hrun; exact fun p hp => hp
  | v :: vs, acc, out, hrun => by
      simp only [collectModelBooleanVariables] at hrun
      by_cases hok : apOk v ((hasVal v).getD false)
      · rw [if_pos hok] at hrun
        intro p hp
        exact collectModelBooleanVariables_acc_sub hasVal apOk vs _ out hrun p
          (List.mem_append_left _ hp)
      · rw [if_neg hok] at hrun; cases hrun

/-- C3 (amended): in ModelManager::collectModelBooleanVariables, every
Boolean variable for which the SAT engine reports no value is entered into
the model with value false; this default is recorded with the same
assertPredicate(var, false) call as an explicitly-assigned false, so it is
not distinguishable in the produced model (only a trace message notes
it). -/
theorem collectModelBooleanVariables_default_false (hasVal : Term → Option Bool)
    (apOk : Term → Bool → Bool) :
    ∀ (vars : List Term) (acc out : List (Term × Bool)) (v : Term),
    hasVal v = none → v ∈ vars →
    collectModelBooleanVariables hasVal apOk vars acc = some out →
    (v, false) ∈ out
  | [], _, _, v, _, hmem, _ => absurd hmem (List.not_mem_nil v)
  | w :: vs, acc, out, v, hv, hmem, hrun => by
      simp only [collectModelBooleanVariables] at hrun
      by_cases hok : apOk w ((hasVal w).getD false)
      · rw [if_pos hok] at hrun
        rcases List.mem_cons.mp hmem with heq | htail
        · subst heq
          have hval : (hasVal v).getD false = false := by rw [hv]; rfl
          refine collectModelBooleanVariables_acc_sub hasVal apOk vs _ out hrun
            (v, false) ?_
          rw [hval] at hrun ⊢
          exact List.mem_append_right _ (List.mem_singleton.mpr rfl)
        · exact collectModelBooleanVariables_default_false hasVal apOk vs _ out v
            hv htail hrun
      · rw [if_neg hok] at hrun; cases hrun

/-- Witness for the amended C3 at concrete inputs. -/
theorem collectModelBooleanVariables_default_false_witness :
    (fun _ : Term => (none : Option Bool)) (Term.var 0 .bool) = none
    ∧ (Term.var 0 .bool, false) ∈ [(Term.var 0 .bool, false)] :=
  ⟨rfl,
   collectModelBooleanVariables_default_false (fun _ => none) (fun _ _ => true)
     [Term.var 0 .bool] [] [(Term.var 0 .bool, false)] (Term.var 0 .bool)
     rfl (by simp) (by decide)⟩

/-- The regular bound variables minted by assertSygusInvConstraint, one
per argument type of the invariant. -/
def regularInvVars : Nat → List Ty → List Term
  | _, [] => []
  | c, t :: ts => Term.var c t :: regularInvVars (c + 2) ts

/-- The primed bound variables minted by assertSygusInvConstraint, one
per argument type of the invariant. -/
def primedInvVars : Nat → List Ty → List Term
  | _, [] => []
  | c, t :: ts => Term.var (c + 1) t :: primedInvVars (c + 2) ts

/-- Pairwise interleaving of the regular and primed variables, the order
in which assertSygusInvConstraint pushes them onto the declared-variable
list. -/
def interleaveVars : List Term → List Term → List Term
  | v :: vs, p :: ps => v :: p :: interleaveVars vs ps
  | _, _ => []

theorem regularInvVars_length : ∀ (c : Nat) (ts : List Ty),
    (regularInvVars c ts).length = ts.length
  | _, [] => rfl
  | c, _ :: ts => by simp [regularInvVars, regularInvVars_length (c + 2) ts]

theorem primedInvVars_length : ∀ (c : Nat) (ts : List Ty),
    (primedInvVars c ts).length = ts.length
  | _, [] => rfl
  | c, _ :: ts => by simp [primedInvVars, primedInvVars_length (c + 2) ts]

theorem mkInvVars_eq : ∀ (c : Nat) (ts : List Ty),
    mkInvVars c ts
      = (regularInvVars c ts, primedInvVars c ts,
         interleaveVars (regularInvVars c ts) (primedInvVars c ts),
         c + 2 * ts.length)
  | _, [] => by simp [mkInvVars, regularInvVars, primedInvVars, interleaveVars]
  | c, t :: ts => by
      simp only [mkInvVars, mkInvVars_eq (c + 2) ts, regularInvVars,
        primedInvVars, interleaveVars, List.length_cons, Prod.mk.injEq]
      refine ⟨trivial, trivial, trivial, by ring⟩

theorem invVars_fresh : ∀ (c : Nat) (ts : List Ty),
    (interleaveVars (regularInvVars c ts) (primedInvVars c ts)).Nodup
    ∧ ∀ x ∈ interleaveVars (regularInvVars c ts) (primedInvVars c ts),
        ∃ i t, x = Term.var i t ∧ c ≤ i ∧ i < c + 2 * ts.length
  | _, [] => by simp [regularInvVars, primedInvVars, interleaveVars]
  | c, t :: ts => by
      obtain ⟨ihnd, ihmem⟩ := invVars_fresh (c + 2) ts
      simp only [regularInvVars, primedInvVars, interleaveVars, List.length_cons]
      constructor
      · refine List.nodup_cons.mpr ⟨?_, List.nodup_cons.mpr ⟨?_, ihnd⟩⟩
        · intro hmem
          rcases List.mem_cons.mp hmem with heq | htail
          · rw [Term.var.injEq] at heq
            exact absurd heq.1 (by omega)
          · obtain ⟨i, s, hx, hle, _⟩ := ihmem _ htail
            injection hx with h1 h2
            omega
        · intro hmem
          obtain ⟨i, s, hx, hle, _⟩ := ihmem _ hmem
          injection hx with h1 h2
          omega
      · intro x hx
        rcases List.mem_cons.mp hx with heq | hx2
        · exact ⟨c, t, heq, le_refl c, by omega⟩
        rcases List.mem_cons.mp hx2 with heq | htail
        · exact ⟨c + 1, t, heq, by omega, by omega⟩
        · obtain ⟨i, s, hxe, hle, hlt⟩ := ihmem _ htail
          exact ⟨i, s, hxe, by omega, by omega⟩

/-- C5: assertSygusInvConstraint(inv, pre, trans, post) pushes exactly one
constraint, the conjunction of the three implications Pre(vars) implies
Inv(vars), (Inv(vars) and Trans(vars, vars-primed)) implies
Inv(vars-primed), and Inv(vars) implies Post(vars); for each argument type
of inv one fresh regular and one fresh primed bound variable are created
(pairwise distinct, with identifiers at or above the fresh-variable
counter) and added to the declared-variable list, and Trans is applied to
both variable lists. -/
theorem assertSygusInvConstraint_spec (st : SygusState) (inv pre trans post : Term) :
    (assertSygusInvConstraint st inv pre trans post).sygusConstraints
      = st.sygusConstraints ++
        [Term.node .AND
          [Term.node .IMPLIES
            [mkApplyUf pre (regularInvVars st.nextId inv.ty.argTypes),
             mkApplyUf inv (regularInvVars st.nextId inv.ty.argTypes)],
           Term.node .IMPLIES
            [Term.node .AND
              [mkApplyUf inv (regularInvVars st.nextId inv.ty.argTypes),
               mkApplyUf trans (regularInvVars st.nextId inv.ty.argTypes
                 ++ primedInvVars st.nextId inv.ty.argTypes)],
             mkApplyUf inv (primedInvVars st.nextId inv.ty.argTypes)],
           Term.node .IMPLIES
            [mkApplyUf inv (regularInvVars st.nextId inv.ty.argTypes),
             mkApplyUf post (regularInvVars st.nextId inv.ty.argTypes)]]]
    ∧ (assertSygusInvConstraint st inv pre trans post).sygusVars
      = st.sygusVars ++ interleaveVars (regularInvVars st.nextId inv.ty.argTypes)
          (primedInvVars st.nextId inv.ty.argTypes)
    ∧ (regularInvVars st.nextId inv.ty.argTypes).length = inv.ty.argTypes.length
    ∧ (primedInvVars st.nextId inv.ty.argTypes).length = inv.ty.argTypes.length
    ∧ (interleaveVars (regularInvVars st.nextId inv.ty.argTypes)
        (primedInvVars st.nextId inv.ty.argTypes)).Nodup
    ∧ (∀ x ∈ interleaveVars (regularInvVars st.nextId inv.ty.argTypes)
        (primedInvVars st.nextId inv.ty.argTypes),
        ∃ i t, x = Term.var i t ∧ st.nextId ≤ i)
    ∧ (assertSygusInvConstraint st inv pre trans post).sygusConjectureStale = true := by
  have hm := mkInvVars_eq st.nextId inv.ty.argTypes
  have hf := invVars_fresh st.nextId inv.ty.argTypes
  refine ⟨?_, ?_, regularInvVars_length _ _, primedInvVars_length _ _, hf.1, ?_, ?_⟩
  · simp [assertSygusInvConstraint, hm]
  · simp [assertSygusInvConstraint, hm]
  · intro x hx
    obtain ⟨i, t, hxe, hle, _⟩ := hf.2 x hx
    exact ⟨i, t, hxe, hle⟩
  · simp [assertSygusInvConstraint]

theorem isCareArg_count_first (trig : Term → Bool) (x A : Term)
    (hx : x.ty.isBag = true) :
    isCareArg trig (Term.node .BAG_COUNT [x, A]) 0 = true := by
  cases h : trig ((Term.node .BAG_COUNT [x, A]).child 0) <;>
    simp [isCareArg, Term.child, Term.children, Term.kindOf, h, hx]

/-- C4 counterexample: two bag.count terms over the same bag whose
element arguments are distinct integer variables (hence not known related
to each other in the equality engine, here modelled by syntactic
equality); the claim requires exactly one case-split lemma, but
processCarePairArgs (the lemma-emission site of computeCareGraph) emits
none, because the split is emitted only for bag-typed element
arguments. -/
theorem processCarePairArgs_no_split_for_nonbag_elements :
    (fun s t : Term => decide (s = t)) (Term.var 0 .int) (Term.var 1 .int) = false
    ∧ Term.var 0 .int ≠ Term.var 1 .int
    ∧ processCarePairArgs (fun s t => decide (s = t)) (fun _ => false)
        (Term.node .BAG_COUNT [Term.var 0 .int, Term.var 2 (.bag .int)])
        (Term.node .BAG_COUNT [Term.var 1 .int, Term.var 2 (.bag .int)]) = [] := by
  refine ⟨by decide, by decide, by decide⟩

/-- C4 (amended): for two bag.count terms over the same bag (second
arguments known equal) whose element arguments are not known equal,
processCarePairArgs emits exactly one case-split lemma
(x = y) or (not (x = y)) when the element arguments are bag-typed, and
emits no lemma when they are not bag-typed (the argument pair is then
only added to the care graph); it emits no such lemma when the element
arguments are already known equal in the equality engine. -/
theorem processCarePairArgs_split_characterization
    (eqF : Term → Term → Bool) (trig : Term → Bool) (x y A B : Term)
    (hAB : eqF A B = true) :
    (eqF x y = false → x.ty.isBag = true → y.ty.isBag = true →
      processCarePairArgs eqF trig (Term.node .BAG_COUNT [x, A])
        (Term.node .BAG_COUNT [y, B]) = [splitLemma x y])
    ∧ (eqF x y = false → x.ty.isBag = false →
      processCarePairArgs eqF trig (Term.node .BAG_COUNT [x, A])
        (Term.node .BAG_COUNT [y, B]) = [])
    ∧ (eqF x y = true →
      processCarePairArgs eqF trig (Term.node .BAG_COUNT [x, A])
        (Term.node .BAG_COUNT [y, B]) = []) := by
  refine ⟨fun hxy hx hy => ?_, fun hxy hx => ?_, fun hxy => ?_⟩
  · simp [processCarePairArgs, Term.numChildren, Term.children, Term.kindOf,
      Term.child, List.range_succ, List.filterMap_cons, List.filterMap_nil,
      List.getElem?_cons_zero, List.getElem?_cons_succ, Option.getD_some,
      isCareArg_count_first trig x A hx,
      isCareArg_count_first trig y B hy, hAB, hxy, hx]
  · simp [processCarePairArgs, Term.numChildren, Term.children, Term.kindOf,
      Term.child, List.range_succ, List.filterMap_cons, List.filterMap_nil,
      List.getElem?_cons_zero, List.getElem?_cons_succ, Option.getD_some,
      hAB, hxy, hx]
  · simp [processCarePairArgs, Term.numChildren, Term.children, Term.kindOf,
      Term.child, List.range_succ, List.filterMap_cons, List.filterMap_nil,
      List.getElem?_cons_zero, List.getElem?_cons_succ, Option.getD_some,
      hAB, hxy]

/-- Witness for the amended C4 at concrete inputs (a bag of bags, so the
element arguments are bag-typed). -/
theorem processCarePairArgs_split_characterization_witness :
    (fun s t : Term => decide (s = t)) (Term.var 2 (.bag (.bag .int)))
      (Term.var 2 (.bag (.bag .int))) = true
    ∧ processCarePairArgs (fun s t => decide (s = t)) (fun _ => false)
        (Term.node .BAG_COUNT [Term.var 0 (.bag .int), Term.var 2 (.bag (.bag .int))])
        (Term.node .BAG_COUNT [Term.var 1 (.bag .int), Term.var 2 (.bag (.bag .int))])
      = [splitLemma (Term.var 0 (.bag .int)) (Term.var 1 (.bag .int))] :=
  ⟨by decide,
   (processCarePairArgs_split_characterization (fun s t => decide (s = t))
      (fun _ => false) (Term.var 0 (.bag .int)) (Term.var 1 (.bag .int))
      (Term.var 2 (.bag (.bag .int))) (Term.var 2 (.bag (.bag .int)))
      (by decide)).1 (by decide) (by decide) (by decide)⟩

theorem lookupAssoc_none_iff : ∀ (m : List (Term × Term)) (k : Term),
    lookupAssoc m k = none ↔ k ∉ m.map Prod.fst
  | [], k => by simp [lookupAssoc]
  | p :: m, k => by
      by_cases h : p.1 = k
      · simp [lookupAssoc, h]
      · simp [lookupAssoc, h, lookupAssoc_none_iff m k, Ne.symm h]

theorem collectModelValuesStep_invariant (env : BagsModelEnv) (termSet : List Term)
    (n : Term) (acc : List (Term × Term) × List (Term × Term))
    (hnd : (acc.1.map (fun a => env.solverRep a.2)).Nodup)
    (hall : ∀ p ∈ acc.1, p.2.ty.isBag = true ∧ env.isLeaf p.2 = true)
    (hkeys : acc.2.map Prod.fst = acc.1.map (fun a => env.solverRep a.2)) :
    ((collectModelValuesStep env termSet acc n).1.map
        (fun a => env.solverRep a.2)).Nodup
    ∧ (∀ p ∈ (collectModelValuesStep env termSet acc n).1,
        p.2.ty.isBag = true ∧ env.isLeaf p.2 = true)
    ∧ (collectModelValuesStep env termSet acc n).2.map Prod.fst
        = (collectModelValuesStep env termSet acc n).1.map
            (fun a => env.solverRep a.2) := by
  by_cases h1 : n.ty.isBag = true
  · by_cases h2 : env.isLeaf n = true
    · by_cases h3 : (lookupAssoc acc.2 (env.solverRep n)).isSome = true
      · have hstep : collectModelValuesStep env termSet acc n = acc := by
          simp [collectModelValuesStep, h1, h2, h3]
        rw [hstep]
        exact ⟨hnd, hall, hkeys⟩
      · have hnone : lookupAssoc acc.2 (env.solverRep n) = none :=
          Option.not_isSome_iff_eq_none.mp h3
        have hnotin : env.solverRep n ∉ acc.1.map (fun a => env.solverRep a.2) := by
          rw [← hkeys]
          exact (lookupAssoc_none_iff acc.2 (env.solverRep n)).mp hnone
        have hstep : collectModelValuesStep env termSet acc n
            = (acc.1 ++ [(env.rw (env.constructBag n.ty
                (((env.elementCountPairs (env.solverRep n)).filter
                    (fun p => decide (p.1 ∈ termSet))).foldl
                  (fun m p => setAssoc m (env.solverRep p.1) (env.modelRep p.2)) [])),
                n)],
               acc.2 ++ [(env.solverRep n, env.rw (env.constructBag n.ty
                (((env.elementCountPairs (env.solverRep n)).filter
                    (fun p => decide (p.1 ∈ termSet))).foldl
                  (fun m p => setAssoc m (env.solverRep p.1) (env.modelRep p.2)) [])))]) := by
          simp [collectModelValuesStep, h1, h2, hnone]
        rw [hstep]
        refine ⟨?_, ?_, ?_⟩
        · simp only [List.map_append, List.map_cons, List.map_nil]
          rw [List.nodup_append]
          refine ⟨hnd, List.nodup_singleton _, ?_⟩
          intro a ha hb
          simp only [List.mem_singleton] at hb
          subst hb
          exact hnotin ha
        · intro p hp
          rcases List.mem_append.mp hp with hold | hnew
          · exact hall p hold
          · simp only [List.mem_singleton] at hnew
            subst hnew
            exact ⟨h1, h2⟩
        · simp only [List.map_append, List.map_cons, List.map_nil, hkeys]
    · have h2f : env.isLeaf n = false := by
        revert h2; cases env.isLeaf n <;> simp
      have hstep : collectModelValuesStep env termSet acc n = acc := by
        simp [collectModelValuesStep, h1, h2f]
      rw [hstep]
      exact ⟨hnd, hall, hkeys⟩
  · have h1f : n.ty.isBag = false := by
      revert h1; cases n.ty.isBag <;> simp
    have hstep : collectModelValuesStep env termSet acc n = acc := by
      simp [collectModelValuesStep, h1f]
    rw [hstep]
    exact ⟨hnd, hall, hkeys⟩

theorem collectModelValues_foldl_invariant (env : BagsModelEnv) (termSet : List Term) :
    ∀ (ts : List Term) (acc : List (Term × Term) × List (Term × Term)),
    (acc.1.map (fun a => env.solverRep a.2)).Nodup →
    (∀ p ∈ acc.1, p.2.ty.isBag = true ∧ env.isLeaf p.2 = true) →
    acc.2.map Prod.fst = acc.1.map (fun a => env.solverRep a.2) →
    ((ts.foldl (collectModelValuesStep env termSet) acc).1.map
        (fun a => env.solverRep a.2)).Nodup
    ∧ ∀ p ∈ (ts.foldl (collectModelValuesStep env termSet) acc).1,
        p.2.ty.isBag = true ∧ env.isLeaf p.2 = true
  | [], acc, hnd, hall, _ => ⟨hnd, hall⟩
  | n :: ts, acc, hnd, hall, hkeys => by
      obtain ⟨h1, h2, h3⟩ :=
        collectModelValuesStep_invariant env termSet n acc hnd hall hkeys
      simpa using collectModelValues_foldl_invariant env termSet ts
        (collectModelValuesStep env termSet acc n) h1 h2 h3

/-- C9: in TheoryBags::collectModelValues, each bag equivalence-class
representative is assigned at most one constructed bag value (the
representatives of the terms receiving an assertEquality are pairwise
distinct, because terms whose representative was already processed are
skipped), and terms in the given term set that are not of bag type or are
not theory leaves for the bags theory are never assigned a value. -/
theorem collectModelValues_unique_per_representative (env : BagsModelEnv)
    (termSet : List Term) :
    ((collectModelValues env termSet).1.map (fun a => env.solverRep a.2)).Nodup
    ∧ ∀ p ∈ (collectModelValues env termSet).1,
        p.2.ty.isBag = true ∧ env.isLeaf p.2 = true :=
  collectModelValues_foldl_invariant env termSet termSet ([], [])
    List.nodup_nil (by simp) rfl

theorem partitionFuns_eq : ∀ (vs fs : List Term) (nt tr : List Term),
    partitionFuns vs fs (nt, tr)
      = (nt ++ fs.filter (fun f => decide (f ∈ vs)),
         tr ++ fs.filter (fun f => !decide (f ∈ vs)))
  | vs, [], nt, tr => by simp [partitionFuns]
  | vs, f :: fs, nt, tr => by
      by_cases h : f ∈ vs
      · simp [partitionFuns, h, partitionFuns_eq vs fs (nt ++ [f]) tr,
          List.filter_cons]
      · simp [partitionFuns, h, partitionFuns_eq vs fs nt (tr ++ [f]),
          List.filter_cons]

theorem mem_insertNew (l : List Term) (x y : Term) :
    y ∈ insertNew l x ↔ y ∈ l ∨ y = x := by
  by_cases h : x ∈ l
  · simp only [insertNew, if_pos h]
    constructor
    · exact Or.inl
    · rintro (h1 | rfl)
      · exact h1
      · exact h
  · simp [insertNew, h]

theorem mem_insertAll : ∀ (xs l : List Term) (y : Term),
    y ∈ insertAll l xs ↔ y ∈ l ∨ y ∈ xs
  | [], l, y => by simp [insertAll]
  | x :: xs, l, y => by
      have h := mem_insertAll xs (insertNew l x) y
      simp only [insertAll, List.foldl_cons] at h ⊢
      rw [h, mem_insertNew]
      simp only [List.mem_cons]
      tauto

theorem trivialityInference_trivial (gram : Term → List Term) (funs vs0 : List Term)
    (f : Term) (hf : f ∈ funs) (hv : f ∉ vs0)
    (hg : ∀ g ∈ (trivialityInference gram funs vs0).1, f ∉ gram g) :
    f ∈ (trivialityInference gram funs vs0).2
    ∧ f ∉ (trivialityInference gram funs vs0).1 := by
  have hpart := partitionFuns_eq vs0 funs [] []
  have hmem_tr0 : f ∈ (partitionFuns vs0 funs ([], [])).2 := by
    rw [hpart]; simp [List.mem_filter, hf, hv]
  have hmem_nt0 : f ∉ (partitionFuns vs0 funs ([], [])).1 := by
    rw [hpart]; simp [List.mem_filter, hv]
  by_cases hemp : (partitionFuns vs0 funs ([], [])).2.isEmpty = true
  · exfalso
    rw [List.isEmpty_iff] at hemp
    rw [hemp] at hmem_tr0
    exact absurd hmem_tr0 (List.not_mem_nil f)
  · by_cases hsz : ((insertAll vs0 ((partitionFuns vs0 funs ([], [])).1.flatMap
        gram)).length == vs0.length) = true
    · have heq : trivialityInference gram funs vs0 = partitionFuns vs0 funs ([], []) := by
        simp only [trivialityInference, hemp, hsz]
        simp
      rw [heq]
      exact ⟨hmem_tr0, hmem_nt0⟩
    · have heq : trivialityInference gram funs vs0
          = partitionFuns (insertAll vs0 ((partitionFuns vs0 funs ([], [])).1.flatMap
              gram)) funs ((partitionFuns vs0 funs ([], [])).1, []) := by
        simp only [trivialityInference, hemp, hsz]
        simp
      rw [heq] at hg ⊢
      simp only [partitionFuns_eq, List.nil_append] at hg hmem_tr0 hmem_nt0 ⊢
      have hvs1 : f ∉ insertAll vs0
          ((funs.filter (fun x => decide (x ∈ vs0))).flatMap gram) := by
        intro hmem
        rcases (mem_insertAll _ _ _).mp hmem with h0 | hfm
        · exact hv h0
        · obtain ⟨g, hgmem, hfg⟩ := List.mem_flatMap.mp hfm
          exact hg g (List.mem_append_left _ hgmem) hfg
      constructor
      · simp [List.mem_filter, hf, hvs1]
      · intro hmem
        rcases List.mem_append.mp hmem with h0 | h1
        · exact hmem_nt0 h0
        · rcases List.mem_filter.mp h1 with ⟨hmemf, hdec⟩
          exact hvs1 (of_decide_eq_true hdec)

theorem lookupAssoc_setAssoc : ∀ (m : List (Term × Term)) (k v f : Term),
    lookupAssoc (setAssoc m k v) f = if f = k then some v else lookupAssoc m f
  | [], k, v, f => by
      by_cases h : f = k
      · subst h; simp [setAssoc, lookupAssoc]
      · simp [setAssoc, lookupAssoc, h, Ne.symm h]
  | p :: m, k, v, f => by
      by_cases h1 : p.1 = k
      · by_cases h2 : f = k
        · subst h2; simp [setAssoc, lookupAssoc, h1]
        · simp [setAssoc, lookupAssoc, h1, h2, Ne.symm h2]
      · by_cases h2 : f = k
        · subst h2
          simp [setAssoc, lookupAssoc, h1, lookupAssoc_setAssoc m f v f,
            Ne.symm h1]
        · by_cases h3 : p.1 = f <;>
            simp [setAssoc, lookupAssoc, h1, h2, h3,
              lookupAssoc_setAssoc m k v f]

theorem lookupAssoc_foldSet (g : Term → Term) :
    ∀ (fs : List Term) (base : List (Term × Term)) (f : Term),
    lookupAssoc (fs.foldl (fun m x => setAssoc m x (g x)) base) f
      = if f ∈ fs then some (g f) else lookupAssoc base f
  | [], base, f => by simp
  | x :: fs, base, f => by
      simp only [List.foldl_cons]
      rw [lookupAssoc_foldSet g fs (setAssoc base x (g x)) f, lookupAssoc_setAssoc]
      by_cases h1 : f ∈ fs
      · simp [h1, List.mem_cons]
      · by_cases h2 : f = x
        · subst h2
          simp [h1]
        · simp [h1, h2, List.mem_cons]

theorem conjBodyBase_kind (st : SygusState) :
    (conjBodyBase st).kindOf = .EXISTS ∨ (conjBodyBase st).kindOf = .NOT := by
  by_cases h : st.sygusVars.isEmpty <;>
    simp [conjBodyBase, h, Term.kindOf]

theorem conjBodyBase_stale (st : SygusState) (b : Bool) :
    conjBodyBase { st with sygusConjectureStale := b } = conjBodyBase st := rfl

/-- C6: when checkSynth rebuilds the conjecture outside streaming and
incremental modes, every declared synthesis function that does not occur
in the substituted, rewritten body of the conjecture and does not become
reachable through the grammar dependencies of a non-trivial function is
placed in the trivial set, is excluded from the function list wrapped
into the synthesis conjecture, and on a successful getSynthSolutions
receives the canonical placeholder solution term, whose type is identical
to the function's declared type. -/
theorem checkSynth_trivial_functions (o : SygusOpts) (pp : Term → Term)
    (gram : Term → List Term) (subsolverMismatch : Bool) (st : SygusState)
    (f : Term) (base : List (Term × Term))
    (hstream : o.sygusStream = false) (hincr : o.incrementalSolving = false)
    (hf : f ∈ st.sygusFunSymbols)
    (hocc : f ∉ getVariables (pp (stripExists (conjBodyBase st))))
    (hg : ∀ g ∈ (trivialityInference gram st.sygusFunSymbols
        (getVariables (pp (stripExists (conjBodyBase st))))).1, f ∉ gram g) :
    f ∈ (checkSynthConstruct o pp gram false subsolverMismatch st).trivialFuns
    ∧ (∀ nt body,
        (checkSynthConstruct o pp gram false subsolverMismatch st).conj
          = mkSygusConjecture nt body → f ∉ nt)
    ∧ lookupAssoc (getSynthSolutionsStep true base
        (checkSynthConstruct o pp gram false subsolverMismatch st).trivialFuns).2 f
      = some (mkSygusTermFor f)
    ∧ (mkSygusTermFor f).ty = f.ty := by
  have hni : usingSygusSubsolver o = false := by
    simp [usingSygusSubsolver, hincr]
  have htf : (checkSynthConstruct o pp gram false subsolverMismatch st).trivialFuns
      = (trivialityInference gram st.sygusFunSymbols
          (getVariables (pp (stripExists (conjBodyBase st))))).2 := by
    simp [checkSynthConstruct, hni, hstream, hincr, conjBodyBase_stale]
  have hcj : (checkSynthConstruct o pp gram false subsolverMismatch st).conj
      = (if !(trivialityInference gram st.sygusFunSymbols
            (getVariables (pp (stripExists (conjBodyBase st))))).1.isEmpty
         then mkSygusConjecture (trivialityInference gram st.sygusFunSymbols
            (getVariables (pp (stripExists (conjBodyBase st))))).1 (conjBodyBase st)
         else conjBodyBase st) := by
    simp [checkSynthConstruct, hni, hstream, hincr, conjBodyBase_stale]
  have htriv := trivialityInference_trivial gram st.sygusFunSymbols
    (getVariables (pp (stripExists (conjBodyBase st)))) f hf hocc hg
  refine ⟨?_, ?_, ?_, rfl⟩
  · rw [htf]
    exact htriv.1
  · intro nt body heq
    rw [hcj] at heq
    by_cases hempty : (trivialityInference gram st.sygusFunSymbols
        (getVariables (pp (stripExists (conjBodyBase st))))).1.isEmpty = true
    · simp only [hempty, Bool.not_true, Bool.false_eq_true, if_false] at heq
      have hk := conjBodyBase_kind st
      rw [heq] at hk
      simp [mkSygusConjecture, Term.kindOf] at hk
    · simp only [hempty, Bool.not_false, if_true] at heq
      simp only [mkSygusConjecture, Term.node.injEq, List.cons.injEq,
        and_true, true_and] at heq
      rcases heq with ⟨heq1, _⟩
      rw [← heq1]
      exact htriv.2
  · rw [htf]
    simp [getSynthSolutionsStep, lookupAssoc_foldSet, htriv.1]

/-- Witness for C6 at concrete inputs: a nullary synthesis function never
referenced by any constraint. -/
theorem checkSynth_trivial_functions_witness :
    Term.var 0 (.fn [] .int)
      ∈ (checkSynthConstruct ⟨false, false⟩ id (fun _ => []) false false
          (declareSynthFun initSygusState (Term.var 0 (.fn [] .int)))).trivialFuns
    ∧ lookupAssoc (getSynthSolutionsStep true []
        (checkSynthConstruct ⟨false, false⟩ id (fun _ => []) false false
          (declareSynthFun initSygusState (Term.var 0 (.fn [] .int)))).trivialFuns).2
        (Term.var 0 (.fn [] .int))
      = some (mkSygusTermFor (Term.var 0 (.fn [] .int)))
    ∧ (mkSygusTermFor (Term.var 0 (.fn [] .int))).ty = (Term.var 0 (.fn [] .int)).ty :=
  ⟨(checkSynth_trivial_functions ⟨false, false⟩ id (fun _ => []) false
      (declareSynthFun initSygusState (Term.var 0 (.fn [] .int)))
      (Term.var 0 (.fn [] .int)) [] rfl rfl (by decide) (by decide) (by decide)).1,
   (checkSynth_trivial_functions ⟨false, false⟩ id (fun _ => []) false
      (declareSynthFun initSygusState (Term.var 0 (.fn [] .int)))
      (Term.var 0 (.fn [] .int)) [] rfl rfl (by decide) (by decide) (by decide)).2.2.1,
   (checkSynth_trivial_functions ⟨false, false⟩ id (fun _ => []) false
      (declareSynthFun initSygusState (Term.var 0 (.fn [] .int)))
      (Term.var 0 (.fn [] .int)) [] rfl rfl (by decide) (by decide) (by decide)).2.2.2⟩

/-- Witness for C5 at a concrete state: an invariant over one integer
argument. -/
theorem assertSygusInvConstraint_spec_witness :
    (assertSygusInvConstraint initSygusState (Term.var 0 (.fn [.int] .bool))
        (Term.var 1 (.fn [.int] .bool)) (Term.var 2 (.fn [.int, .int] .bool))
        (Term.var 3 (.fn [.int] .bool))).sygusVars
      = initSygusState.sygusVars
        ++ interleaveVars
            (regularInvVars initSygusState.nextId
              (Term.var 0 (.fn [.int] .bool)).ty.argTypes)
            (primedInvVars initSygusState.nextId
              (Term.var 0 (.fn [.int] .bool)).ty.argTypes)
    ∧ (interleaveVars
        (regularInvVars initSygusState.nextId
          (Term.var 0 (.fn [.int] .bool)).ty.argTypes)
        (primedInvVars initSygusState.nextId
          (Term.var 0 (.fn [.int] .bool)).ty.argTypes)).Nodup
    ∧ (assertSygusInvConstraint initSygusState (Term.var 0 (.fn [.int] .bool))
        (Term.var 1 (.fn [.int] .bool)) (Term.var 2 (.fn [.int, .int] .bool))
        (Term.var 3 (.fn [.int] .bool))).sygusConjectureStale = true :=
  ⟨(assertSygusInvConstraint_spec initSygusState (Term.var 0 (.fn [.int] .bool))
      (Term.var 1 (.fn [.int] .bool)) (Term.var 2 (.fn [.int, .int] .bool))
      (Term.var 3 (.fn [.int] .bool))).2.1,
   (assertSygusInvConstraint_spec initSygusState (Term.var 0 (.fn [.int] .bool))
      (Term.var 1 (.fn [.int] .bool)) (Term.var 2 (.fn [.int, .int] .bool))
      (Term.var 3 (.fn [.int] .bool))).2.2.2.2.1,
   (assertSygusInvConstraint_spec initSygusState (Term.var 0 (.fn [.int] .bool))
      (Term.var 1 (.fn [.int] .bool)) (Term.var 2 (.fn [.int, .int] .bool))
      (Term.var 3 (.fn [.int] .bool))).2.2.2.2.2.2⟩

/-- Witness for C9 at a concrete environment and term set. -/
theorem collectModelValues_unique_per_representative_witness :
    ((collectModelValues
        ⟨fun _ => true, id, id, fun _ => [], fun t _ => Term.ground t, id⟩
        [Term.var 0 (.bag .int)]).1.map
      (fun a => (⟨fun _ => true, id, id, fun _ => [], fun t _ => Term.ground t,
          id⟩ : BagsModelEnv).solverRep a.2)).Nodup
    ∧ ∀ p ∈ (collectModelValues
        ⟨fun _ => true, id, id, fun _ => [], fun t _ => Term.ground t, id⟩
        [Term.var 0 (.bag .int)]).1,
        p.2.ty.isBag = true
        ∧ (⟨fun _ => true, id, id, fun _ => [], fun t _ => Term.ground t,
            id⟩ : BagsModelEnv).isLeaf p.2 = true :=
  collectModelValues_unique_per_representative
    ⟨fun _ => true, id, id, fun _ => [], fun t _ => Term.ground t, id⟩
    [Term.var 0 (.bag .int)]
